import Mathlib

/-
Verification of docker-repo-cp: a tool that copies container images between
two registry repositories.  The embedding models Python strings as lists of
characters (Python strings are sequences of code points), the container
engine as explicit inputs and explicit traces of engine calls, and raised
exceptions as `Option`/`Except`-style results.
-/

/-- A Python string: a sequence of code points. -/
abbrev PyStr := List Char

/-- Python `s.split(sep)` for a one-character separator: always returns a
non-empty list; `"".split(sep) == [""]`. -/
def pySplit (sep : Char) : PyStr → List PyStr
  | [] => [[]]
  | c :: cs =>
    if c = sep then [] :: pySplit sep cs
    else
      match pySplit sep cs with
      | [] => [[c]]
      | p :: ps => (c :: p) :: ps

/-- Python `sep.join(parts)`. -/
def pyJoin (sep : PyStr) : List PyStr → PyStr
  | [] => []
  | [x] => x
  | x :: y :: xs => x ++ sep ++ pyJoin sep (y :: xs)

/-- `ImageTag` from the source: a parsed `repository:tag` reference. -/
structure ImageTag where
  repository : PyStr
  tag : PyStr
deriving DecidableEq

/-- `ImageTag.from_string`: split on `":"`; fewer than two segments is an
invalid reference (`none` models the raised `ValueError`); otherwise the last
segment is the tag and the remaining segments rejoined with `":"` form the
repository. -/
def ImageTag.from_string (s : PyStr) : Option ImageTag :=
  let split_s := pySplit ':' s
  if split_s.length < 2 then none
  else some { repository := pyJoin [':'] split_s.dropLast, tag := split_s.getLastD [] }

/-- `ImageTag.uri`: `f"{repository}:{tag}"`. -/
def ImageTag.uri (t : ImageTag) : PyStr :=
  t.repository ++ [':'] ++ t.tag

lemma pySplit_ne_nil (sep : Char) (s : PyStr) : pySplit sep s ≠ [] := by
  cases s with
  | nil => simp [pySplit]
  | cons c cs =>
    simp only [pySplit]
    by_cases h : c = sep
    · simp [h]
    · simp only [if_neg h]
      rcases hps : pySplit sep cs with _ | ⟨p, ps⟩ <;> simp

lemma pySplit_of_not_mem (sep : Char) (s : PyStr) (h : ¬ sep ∈ s) :
    pySplit sep s = [s] := by
  induction s with
  | nil => simp [pySplit]
  | cons c cs ih =>
    simp only [List.mem_cons, not_or] at h
    have hc : ¬ c = sep := fun hcc => h.1 hcc.symm
    simp [pySplit, if_neg hc, ih h.2]

lemma pySplit_append_sep (sep : Char) (a b : PyStr) (hb : ¬ sep ∈ b) :
    pySplit sep (a ++ sep :: b) = pySplit sep a ++ [b] := by
  induction a with
  | nil => simp [pySplit, pySplit_of_not_mem sep b hb]
  | cons c a ih =>
    by_cases h : c = sep
    · simp only [List.cons_append, pySplit, if_pos h, List.append_eq]
      rw [ih]
    · simp only [List.cons_append, pySplit, if_neg h, List.append_eq]
      rw [ih]
      rcases hps : pySplit sep a with _ | ⟨p, ps⟩
      · exact absurd hps (pySplit_ne_nil sep a)
      · simp

lemma pyJoin_pySplit (sep : Char) (s : PyStr) :
    pyJoin [sep] (pySplit sep s) = s := by
  induction s with
  | nil => simp [pySplit, pyJoin]
  | cons c cs ih =>
    by_cases h : c = sep
    · simp only [pySplit, if_pos h]
      rcases hps : pySplit sep cs with _ | ⟨p, ps⟩
      · exact absurd hps (pySplit_ne_nil sep cs)
      · rw [hps] at ih
        simp [pyJoin, ih, h]
    · simp only [pySplit, if_neg h]
      rcases hps : pySplit sep cs with _ | ⟨p, ps⟩
      · exact absurd hps (pySplit_ne_nil sep cs)
      · rw [hps] at ih
        cases ps with
        | nil => simpa [pyJoin] using congrArg (c :: ·) ih
        | cons q qs => simpa [pyJoin] using congrArg (c :: ·) ih

lemma two_le_pySplit_length_iff (sep : Char) (s : PyStr) :
    2 ≤ (pySplit sep s).length ↔ sep ∈ s := by
  induction s with
  | nil => simp [pySplit]
  | cons c cs ih =>
    by_cases h : c = sep
    · subst h
      have hstep : pySplit c (c :: cs) = [] :: pySplit c cs := by
        simp [pySplit]
      rw [hstep]
      have hpos := List.length_pos.mpr (pySplit_ne_nil c cs)
      constructor
      · intro _
        exact List.mem_cons_self c cs
      · intro _
        simp only [List.length_cons]
        omega
    · rcases hps : pySplit sep cs with _ | ⟨p, ps⟩
      · exact absurd hps (pySplit_ne_nil sep cs)
      · rw [hps] at ih
        simp only [pySplit, if_neg h, hps, List.length_cons] at ih ⊢
        constructor
        · intro hl
          exact List.mem_cons_of_mem c (ih.mp hl)
        · intro hm
          rcases List.mem_cons.mp hm with hc | hm2
          · exact absurd hc.symm h
          · exact ih.mpr hm2

lemma from_string_append_last_colon (a b : PyStr) (hb : ¬ ':' ∈ b) :
    ImageTag.from_string (a ++ ':' :: b) = some ⟨a, b⟩ := by
  have hsplit := pySplit_append_sep ':' a b hb
  have hlen : ¬ (pySplit ':' a ++ [b]).length < 2 := by
    rw [List.length_append]
    have := List.length_pos.mpr (pySplit_ne_nil ':' a)
    simp only [List.length_cons, List.length_nil]
    omega
  simp only [ImageTag.from_string, hsplit, if_neg hlen]
  rw [List.dropLast_concat, List.getLastD_concat, pyJoin_pySplit]

/-- C2: for every string containing at least one colon, `ImageTag.from_string`
splits on the last colon: writing the string as `a ++ ":" ++ b` with `b`
colon-free, the tag is `b` and the repository is `a`. -/
theorem from_string_splits_on_last_colon (a b : PyStr) (hb : ¬ ':' ∈ b) :
    ImageTag.from_string (a ++ ':' :: b) = some ⟨a, b⟩ :=
  from_string_append_last_colon a b hb

/-- Witness for C2: the spec example, `"host:5000/app:v1"` parses to
repository `"host:5000/app"` and tag `"v1"`. -/
theorem from_string_splits_on_last_colon_witness :
    (¬ ':' ∈ String.toList "v1") ∧
      ImageTag.from_string (String.toList "host:5000/app" ++ ':' :: String.toList "v1") =
        some ⟨String.toList "host:5000/app", String.toList "v1"⟩ :=
  ⟨by decide, from_string_splits_on_last_colon (String.toList "host:5000/app") (String.toList "v1") (by decide)⟩

/-- C6: `ImageTag.from_string` fails (models raising `ValueError`, the
invalid-reference error) exactly when the input contains no colon; every
string containing at least one colon parses successfully. -/
theorem from_string_fails_iff_no_colon (s : PyStr) :
    ImageTag.from_string s = none ↔ ¬ ':' ∈ s := by
  have h2 := two_le_pySplit_length_iff ':' s
  constructor
  · intro hnone hmem
    have hge := h2.mpr hmem
    simp only [ImageTag.from_string] at hnone
    rw [if_neg (by omega)] at hnone
    exact Option.some_ne_none _ hnone
  · intro hmem
    have hlt : (pySplit ':' s).length < 2 := by
      by_contra hge
      exact hmem (h2.mp (by omega))
    simp only [ImageTag.from_string, if_pos hlt]

/-- C10: a string whose final colon is its last character parses: the tag is
the empty string and the repository is everything before the final colon. -/
theorem from_string_trailing_colon (a : PyStr) :
    ImageTag.from_string (a ++ [':']) = some ⟨a, []⟩ :=
  from_string_append_last_colon a [] (by simp)

/-- Counterexample to C7 as stated: for the `ImageTag` with repository `"a"`
and tag `"b:c"`, the uri `"a:b:c"` parses back to `⟨"a:b", "c"⟩`, not to the
original pair. -/
theorem uri_roundtrip_counterexample :
    ImageTag.from_string (ImageTag.uri ⟨String.toList "a", String.toList "b:c"⟩) ≠
      some ⟨String.toList "a", String.toList "b:c"⟩ := by
  decide

/-- C7 (amended): for every `ImageTag` whose tag contains no colon, the uri
`repository ++ ":" ++ tag` parses back to the same pair. -/
theorem uri_roundtrip_of_colon_free_tag (t : ImageTag) (h : ¬ ':' ∈ t.tag) :
    ImageTag.from_string t.uri = some t := by
  have := from_string_append_last_colon t.repository t.tag h
  simp only [ImageTag.uri, List.append_assoc, List.singleton_append]
  rw [this]

/-- Witness for C7 (amended): `⟨"repo", "v1"⟩` round-trips through its uri. -/
theorem uri_roundtrip_of_colon_free_tag_witness :
    (¬ ':' ∈ (ImageTag.mk (String.toList "repo") (String.toList "v1")).tag) ∧
      ImageTag.from_string (ImageTag.uri ⟨String.toList "repo", String.toList "v1"⟩) =
        some ⟨String.toList "repo", String.toList "v1"⟩ :=
  ⟨by decide, uri_roundtrip_of_colon_free_tag ⟨String.toList "repo", String.toList "v1"⟩ (by decide)⟩

/-- A decoded push-log record, modelled as a JSON object: an association list
of string keys and string values.  `json.loads` itself is external library
code; functions that use it take the decoder as a parameter. -/
abbrev Payload := List (PyStr × PyStr)

/-- The source's `"error" in payload` test: key membership in the record. -/
def payloadHasError (payload : Payload) : Bool :=
  payload.any (fun kv => kv.1 = String.toList "error")

/-- The loop body of `process_docker_push_logs` over the already-split lines:
skip empty lines (`if line:`), skip lines the decoder rejects (the
`except json.JSONDecodeError: pass` branch), and raise (`some payload`) at the
first decoded record containing an `"error"` field. -/
def processPushLines (decode : PyStr → Option Payload) : List PyStr → Option Payload
  | [] => none
  | line :: rest =>
    if line = [] then processPushLines decode rest
    else
      match decode line with
      | none => processPushLines decode rest
      | some payload =>
        if payloadHasError payload then some payload
        else processPushLines decode rest

/-- `process_docker_push_logs`: split the log stream on newlines and scan the
lines; the result `some payload` models raising
`ValueError(f"Pushing to registry raised an error: ...")` carrying the record,
`none` models normal return. -/
def process_docker_push_logs (decode : PyStr → Option Payload) (logs : PyStr) : Option Payload :=
  processPushLines decode (pySplit '\n' logs)

lemma processPushLines_error_mem (decode : PyStr → Option Payload)
    (lines : List PyStr) (p : Payload)
    (h : processPushLines decode lines = some p) :
    ∃ line ∈ lines, decode line = some p ∧ payloadHasError p = true := by
  induction lines with
  | nil => simp [processPushLines] at h
  | cons line rest ih =>
    by_cases hl : line = []
    · rw [processPushLines, if_pos hl] at h
      obtain ⟨l, hm, hd⟩ := ih h
      exact ⟨l, List.mem_cons_of_mem line hm, hd⟩
    · rw [processPushLines, if_neg hl] at h
      rcases hdec : decode line with _ | payload
      · rw [hdec] at h
        obtain ⟨l, hm, hd⟩ := ih h
        exact ⟨l, List.mem_cons_of_mem line hm, hd⟩
      · rw [hdec] at h
        have h' : (if payloadHasError payload = true then some payload
            else processPushLines decode rest) = some p := h
        by_cases herr : payloadHasError payload = true
        · rw [if_pos herr] at h'
          have hpp : payload = p := Option.some_inj.mp h'
          subst hpp
          exact ⟨line, List.mem_cons_self line rest, hdec, herr⟩
        · rw [if_neg herr] at h'
          obtain ⟨l, hm, hd⟩ := ih h'
          exact ⟨l, List.mem_cons_of_mem line hm, hd⟩

lemma processPushLines_isSome_of_mem (decode : PyStr → Option Payload)
    (hdec : decode [] = none) (lines : List PyStr) (line : PyStr) (p : Payload)
    (hm : line ∈ lines) (hd : decode line = some p) (he : payloadHasError p = true) :
    ∃ q, processPushLines decode lines = some q := by
  induction lines with
  | nil => simp at hm
  | cons l rest ih =>
    by_cases hl : l = []
    · rw [processPushLines, if_pos hl]
      rcases List.mem_cons.mp hm with hcase | hmem
      · exfalso
        rw [hcase, hl, hdec] at hd
        exact Option.noConfusion hd
      · exact ih hmem
    · rw [processPushLines, if_neg hl]
      rcases List.mem_cons.mp hm with hcase | hmem
      · subst hcase
        rw [hd]
        refine ⟨p, ?_⟩
        show (if payloadHasError p = true then some p
          else processPushLines decode rest) = some p
        rw [if_pos he]
      · rcases hdc : decode l with _ | payload
        · exact ih hmem
        · by_cases herr : payloadHasError payload = true
          · refine ⟨payload, ?_⟩
            show (if payloadHasError payload = true then some payload
              else processPushLines decode rest) = some payload
            rw [if_pos herr]
          · obtain ⟨q, hq⟩ := ih hmem
            refine ⟨q, ?_⟩
            show (if payloadHasError payload = true then some payload
              else processPushLines decode rest) = some q
            rw [if_neg herr]
            exact hq

/-- C3: processing a push-log stream raises `RegistryPushError` (`some p`)
if and only if some newline-delimited line decodes to a record containing an
`"error"` field, and the raised error carries such a record; lines the
decoder rejects never cause an error by themselves.  The hypothesis states
that the decoder, like `json.loads`, rejects the empty string. -/
theorem process_push_logs_error_iff (decode : PyStr → Option Payload)
    (logs : PyStr) (hdec : decode [] = none) :
    ((∃ p, process_docker_push_logs decode logs = some p) ↔
      ∃ line ∈ pySplit '\n' logs, ∃ p, decode line = some p ∧ payloadHasError p = true)
    ∧ ∀ p, process_docker_push_logs decode logs = some p →
        ∃ line ∈ pySplit '\n' logs, decode line = some p ∧ payloadHasError p = true := by
  constructor
  · constructor
    · rintro ⟨p, hp⟩
      obtain ⟨line, hm, hd, he⟩ := processPushLines_error_mem decode _ p hp
      exact ⟨line, hm, p, hd, he⟩
    · rintro ⟨line, hm, p, hd, he⟩
      exact processPushLines_isSome_of_mem decode hdec _ line p hm hd he
  · intro p hp
    exact processPushLines_error_mem decode _ p hp

/-- A concrete decoder for the C3 witness: `"s"` decodes to a status record,
`"e"` decodes to a record with an `"error"` field, everything else (including
the empty string and the non-JSON line `"x"`) is rejected. -/
def exampleDecode : PyStr → Option Payload :=
  fun s =>
    if s = String.toList "s" then some [(String.toList "status", String.toList "ok")]
    else if s = String.toList "e" then some [(String.toList "error", String.toList "denied")]
    else none

/-- Witness for C3: on the stream `"s\nx\ne"` (an ok record, a non-decodable
line, an error record) the characterization holds. -/
theorem process_push_logs_error_iff_witness :
    exampleDecode [] = none ∧
      (((∃ p, process_docker_push_logs exampleDecode (String.toList "s\nx\ne") = some p) ↔
        ∃ line ∈ pySplit '\n' (String.toList "s\nx\ne"), ∃ p,
          exampleDecode line = some p ∧ payloadHasError p = true)
      ∧ ∀ p, process_docker_push_logs exampleDecode (String.toList "s\nx\ne") = some p →
          ∃ line ∈ pySplit '\n' (String.toList "s\nx\ne"),
            exampleDecode line = some p ∧ payloadHasError p = true) :=
  ⟨by decide, process_push_logs_error_iff exampleDecode (String.toList "s\nx\ne") (by decide)⟩

/-- `Image` from the source: an image id, its parsed tags, and the underlying
engine image object.  The engine object is opaque; it is modelled by a
numeric handle identifying it. -/
structure Image where
  id : PyStr
  tags : List ImageTag
  docker_object : Nat
deriving DecidableEq

/-- An image as reported by the container engine: id, raw `"repo:tag"`
strings, and the identity of the underlying engine object. -/
structure RawImage where
  id : PyStr
  tags : List PyStr
  handle : Nat
deriving DecidableEq

/-- A call issued against the container engine; operations record their
engine calls as an explicit trace. -/
inductive EngineCall where
  | tagCall (handle : Nat) (repository : PyStr) (tag : PyStr)
  | pushCall (repository : PyStr)
  | pullCall (repository : PyStr) (all_tags : Bool)
deriving DecidableEq

/-- `DockerImageProxy`: the orchestrator, parameterized by the `apply` flag.
The engine client connection itself is external; engine responses are passed
to the methods explicitly and engine calls are returned as traces. -/
structure DockerImageProxy where
  apply : Bool := false
deriving DecidableEq

/-- `DockerImageProxy._format_docker_image`: wrap an engine image, parsing
each raw tag; a raw tag without a colon makes the whole wrapping fail (the
parser's `ValueError` propagates). -/
def _format_docker_image (docker_image : RawImage) : Option Image :=
  (docker_image.tags.mapM ImageTag.from_string).map
    (fun tags => ⟨docker_image.id, tags, docker_image.handle⟩)

/-- The loop of `DockerImageProxy.migrate_tags` over the image's tags:
tags whose repository does not start with `src_repository` are skipped;
for the others a tag under `new_repository` with the same tag suffix is
derived, the engine `tag` call is issued only when `apply` is true, and the
derived tag is appended. -/
def migrateLoop (apply : Bool) (handle : Nat) (src_repository new_repository : PyStr) :
    List ImageTag → List ImageTag × List EngineCall
  | [] => ([], [])
  | prev_tag :: rest =>
    if src_repository.isPrefixOf prev_tag.repository then
      let new_tag : ImageTag := ⟨new_repository, prev_tag.tag⟩
      let r := migrateLoop apply handle src_repository new_repository rest
      (new_tag :: r.1,
        (if apply then [EngineCall.tagCall handle new_tag.repository new_tag.tag] else []) ++ r.2)
    else migrateLoop apply handle src_repository new_repository rest

/-- `DockerImageProxy.migrate_tags`: returns the new `Image` (same id and
engine object, original tags followed by the derived tags) together with the
trace of engine calls issued. -/
def DockerImageProxy.migrate_tags (self : DockerImageProxy) (image : Image)
    (src_repository new_repository : PyStr) : Image × List EngineCall :=
  let r := migrateLoop self.apply image.docker_object src_repository new_repository image.tags
  (⟨image.id, image.tags ++ r.1, image.docker_object⟩, r.2)

/-- `DockerImageProxy.push_all`: when `apply` is true, issue the engine push
and scan its response stream (`pushLogs`), otherwise do nothing.  Returns the
raised error, if any, and the trace of engine calls. -/
def DockerImageProxy.push_all (self : DockerImageProxy) (decode : PyStr → Option Payload)
    (pushLogs : PyStr) (repository_name : PyStr) : Option Payload × List EngineCall :=
  if self.apply then
    (process_docker_push_logs decode pushLogs, [EngineCall.pushCall repository_name])
  else (none, [])

/-- `DockerImageProxy.pull_all`: issue the engine pull with `all_tags=True`
(unconditionally — the `apply` flag is not consulted) and wrap the images the
engine returns. -/
def DockerImageProxy.pull_all (self : DockerImageProxy) (repository_name : PyStr)
    (engineImages : List RawImage) : Option (List Image) × List EngineCall :=
  (engineImages.mapM _format_docker_image, [EngineCall.pullCall repository_name true])

lemma migrateLoop_fst (apply : Bool) (handle : Nat) (src new : PyStr)
    (tags : List ImageTag) :
    (migrateLoop apply handle src new tags).1 =
      tags.filterMap
        (fun prev => if src.isPrefixOf prev.repository then some ⟨new, prev.tag⟩ else none) := by
  induction tags with
  | nil => simp [migrateLoop]
  | cons prev rest ih =>
    by_cases h : src <+: prev.repository
    · simp [migrateLoop, h, ih, List.filterMap_cons]
    · simp [migrateLoop, h, ih, List.filterMap_cons]

lemma migrateLoop_snd_nil (handle : Nat) (src new : PyStr) (tags : List ImageTag) :
    (migrateLoop false handle src new tags).2 = [] := by
  induction tags with
  | nil => simp [migrateLoop]
  | cons prev rest ih =>
    by_cases h : src <+: prev.repository
    · simp [migrateLoop, h, ih]
    · simp [migrateLoop, h, ih]

/-- C4: `migrate_tags` returns an `Image` whose tag list is the original tags
followed by one derived tag (repository replaced by `new_repository`, same
tag suffix) for each original tag whose repository starts with
`src_repository`, in original order with no de-duplication, and whose id and
engine-object handle are unchanged; this holds for every `apply` flag. -/
theorem migrate_tags_result (self : DockerImageProxy) (image : Image)
    (src_repository new_repository : PyStr) :
    (self.migrate_tags image src_repository new_repository).1 =
      ⟨image.id,
        image.tags ++ image.tags.filterMap
          (fun prev => if src_repository.isPrefixOf prev.repository
            then some ⟨new_repository, prev.tag⟩ else none),
        image.docker_object⟩ := by
  simp [DockerImageProxy.migrate_tags, migrateLoop_fst]

/-- C5: in dry-run mode (`apply = false`), `migrate_tags` issues no engine
calls and computes the same image as with `apply = true` (it is a pure
function of its inputs), and `push_all` is a no-op: no error, no engine
calls. -/
theorem dry_run_is_pure (image : Image) (src_repository new_repository : PyStr)
    (decode : PyStr → Option Payload) (pushLogs repository_name : PyStr) :
    ((⟨false⟩ : DockerImageProxy).migrate_tags image src_repository new_repository).2 = []
    ∧ ((⟨false⟩ : DockerImageProxy).migrate_tags image src_repository new_repository).1 =
        ((⟨true⟩ : DockerImageProxy).migrate_tags image src_repository new_repository).1
    ∧ (⟨false⟩ : DockerImageProxy).push_all decode pushLogs repository_name = (none, []) := by
  refine ⟨?_, ?_, ?_⟩
  · simp [DockerImageProxy.migrate_tags, migrateLoop_snd_nil]
  · simp [DockerImageProxy.migrate_tags, migrateLoop_fst]
  · simp [DockerImageProxy.push_all]

/-- C8: `pull_all` issues the engine pull with `all_tags = true` for every
value of the `apply` flag — dry-run included — unlike `migrate_tags` and
`push_all`, whose engine-call traces are empty when `apply` is false. -/
theorem pull_all_ignores_apply_flag (apply : Bool) (repository_name : PyStr)
    (engineImages : List RawImage) (image : Image)
    (src_repository new_repository : PyStr) (decode : PyStr → Option Payload)
    (pushLogs : PyStr) :
    ((⟨apply⟩ : DockerImageProxy).pull_all repository_name engineImages).2 =
      [EngineCall.pullCall repository_name true]
    ∧ ((⟨false⟩ : DockerImageProxy).migrate_tags image src_repository new_repository).2 = []
    ∧ ((⟨false⟩ : DockerImageProxy).push_all decode pushLogs repository_name).2 = [] := by
  refine ⟨rfl, ?_, ?_⟩
  · simp [DockerImageProxy.migrate_tags, migrateLoop_snd_nil]
  · simp [DockerImageProxy.push_all]

/-- `list_local_images` flattened to tags: all raw tags across all images the
engine currently reports. -/
def listLocalTags (images : List RawImage) : List PyStr :=
  images.flatMap (fun image => image.tags)

/-- The removals the exit phase of `docker_context` plans: iterate the
re-listed images and their tags, skipping every tag present in the initial
snapshot `init_image_tags`. -/
def cleanupPlan (init_image_tags : List PyStr) (images : List RawImage) : List PyStr :=
  images.flatMap (fun image => image.tags.filter (fun t => decide (¬ t ∈ init_image_tags)))

/-- Execute the planned `client.images.remove` calls in order;
`removeResult t = some e` means the engine call for `t` raises `e`.  A raised
error stops the loop: the result is the list of tags for which a remove call
was issued together with the error, if any. -/
def runCleanup {ε : Type} (removeResult : PyStr → Option ε) :
    List PyStr → List PyStr × Option ε
  | [] => ([], none)
  | t :: ts =>
    match removeResult t with
    | some e => ([t], some e)
    | none =>
      let r := runCleanup removeResult ts
      (t :: r.1, r.2)

/-- `docker_context`: snapshot the tags of all local images, run the body
(which may end normally, `none`, or with a propagated error, `some e`, and
leaves the engine with a new list of local images), then — in `finally`
position, on both exits — re-list the local images and remove every tag not
present in the snapshot.  Returns the propagated outcome (an error raised
inside the cleanup replaces the body's outcome, as in Python's `finally`)
and the trace of remove calls issued. -/
def docker_context {ε : Type} (removeResult : PyStr → Option ε) (s0 : List RawImage)
    (body : List RawImage → Option ε × List RawImage) :
    Option ε × List PyStr :=
  let init_image_tags := listLocalTags s0
  let r := body s0
  let c := runCleanup removeResult (cleanupPlan init_image_tags r.2)
  (match c.2 with
   | some e => some e
   | none => r.1, c.1)

lemma runCleanup_all_ok {ε : Type} (removeResult : PyStr → Option ε)
    (l : List PyStr) (h : ∀ t ∈ l, removeResult t = none) :
    runCleanup removeResult l = (l, none) := by
  induction l with
  | nil => rfl
  | cons t ts ih =>
    rw [runCleanup, h t (List.mem_cons_self t ts),
      ih (fun u hu => h u (List.mem_cons_of_mem t hu))]

lemma runCleanup_stops_at_failure {ε : Type} (removeResult : PyStr → Option ε)
    (pre post : List PyStr) (t : PyStr) (e : ε)
    (hpre : ∀ u ∈ pre, removeResult u = none) (ht : removeResult t = some e) :
    runCleanup removeResult (pre ++ t :: post) = (pre ++ [t], some e) := by
  induction pre with
  | nil => simp [runCleanup, ht]
  | cons u us ih =>
    rw [List.cons_append, runCleanup, hpre u (List.mem_cons_self u us),
      ih (fun v hv => hpre v (List.mem_cons_of_mem u hv))]
    rfl

lemma mem_cleanupPlan_iff (init_image_tags : List PyStr) (images : List RawImage)
    (t : PyStr) :
    t ∈ cleanupPlan init_image_tags images ↔
      t ∈ listLocalTags images ∧ ¬ t ∈ init_image_tags := by
  simp only [cleanupPlan, listLocalTags, List.mem_flatMap, List.mem_filter,
    decide_eq_true_eq]
  constructor
  · rintro ⟨img, hmi, hmt, hni⟩
    exact ⟨⟨img, hmi, hmt⟩, hni⟩
  · rintro ⟨⟨img, hmi, hmt⟩, hni⟩
    exact ⟨img, hmi, hmt, hni⟩

/-- C1: the cleanup guard's exit phase — which runs for both a normally
completing body (`none`) and a body ending in a propagated failure
(`some e`) — issues a remove call for every re-listed local tag absent from
the initial snapshot, never issues a remove call for a tag present at entry,
and (when the removals themselves succeed) lets the body's outcome through
unchanged.  The hypothesis states that the engine remove calls succeed. -/
theorem docker_context_cleanup {ε : Type} (removeResult : PyStr → Option ε)
    (s0 : List RawImage) (body : List RawImage → Option ε × List RawImage)
    (hok : ∀ t ∈ cleanupPlan (listLocalTags s0) (body s0).2, removeResult t = none) :
    (∀ t, t ∈ listLocalTags (body s0).2 → ¬ t ∈ listLocalTags s0 →
        t ∈ (docker_context removeResult s0 body).2)
    ∧ (∀ t ∈ listLocalTags s0, ¬ t ∈ (docker_context removeResult s0 body).2)
    ∧ (docker_context removeResult s0 body).1 = (body s0).1 := by
  have hrun := runCleanup_all_ok removeResult
    (cleanupPlan (listLocalTags s0) (body s0).2) hok
  have htrace : (docker_context removeResult s0 body).2 =
      cleanupPlan (listLocalTags s0) (body s0).2 := by
    simp [docker_context, hrun]
  refine ⟨?_, ?_, ?_⟩
  · intro t hmem hnew
    rw [htrace, mem_cleanupPlan_iff]
    exact ⟨hmem, hnew⟩
  · intro t hinit hmem
    rw [htrace, mem_cleanupPlan_iff] at hmem
    exact hmem.2 hinit
  · simp [docker_context, hrun]

/-- The initial local store for the C1 witness: one image tagged `"a:1"`. -/
def exInit : List RawImage :=
  [⟨String.toList "i0", [String.toList "a:1"], 0⟩]

/-- The scoped body for the C1 witness: it ends in a propagated failure
(`some 7`) after a second local image tagged `"b:1"` has appeared. -/
def exBody : List RawImage → Option Nat × List RawImage :=
  fun _ => (some 7,
    [⟨String.toList "i0", [String.toList "a:1"], 0⟩,
     ⟨String.toList "i1", [String.toList "b:1"], 1⟩])

/-- Engine remove behavior for the C1 witness: every remove call succeeds. -/
def exRemove : PyStr → Option Nat :=
  fun _ => none

/-- Witness for C1: with an initial image tagged `"a:1"` and a failing body
after which `"b:1"` also exists locally, the guard removes the new tag,
leaves `"a:1"` alone, and propagates the body's failure. -/
theorem docker_context_cleanup_witness :
    (∀ t ∈ cleanupPlan (listLocalTags exInit) (exBody exInit).2, exRemove t = none)
    ∧ ((∀ t, t ∈ listLocalTags (exBody exInit).2 → ¬ t ∈ listLocalTags exInit →
          t ∈ (docker_context exRemove exInit exBody).2)
      ∧ (∀ t ∈ listLocalTags exInit, ¬ t ∈ (docker_context exRemove exInit exBody).2)
      ∧ (docker_context exRemove exInit exBody).1 = (exBody exInit).1) :=
  ⟨by decide, docker_context_cleanup exRemove exInit exBody (by decide)⟩

/-- C9: if an engine remove call fails during the exit phase, the failure
propagates as the outcome of `docker_context` and no remove call after the
failing one is issued: the trace is exactly the successful prefix followed by
the failing tag. -/
theorem docker_context_cleanup_failure_stops {ε : Type}
    (removeResult : PyStr → Option ε) (s0 : List RawImage)
    (body : List RawImage → Option ε × List RawImage)
    (pre post : List PyStr) (t : PyStr) (e : ε)
    (hplan : cleanupPlan (listLocalTags s0) (body s0).2 = pre ++ t :: post)
    (hpre : ∀ u ∈ pre, removeResult u = none) (ht : removeResult t = some e) :
    docker_context removeResult s0 body = (some e, pre ++ [t]) := by
  have hrun := runCleanup_stops_at_failure removeResult pre post t e hpre ht
  simp [docker_context, hplan, hrun]

/-- The scoped body for the C9 witness: it completes normally, leaving one
image with tags `"x:1"`, `"b:1"`, `"y:1"` in an initially empty store. -/
def exBody2 : List RawImage → Option Nat × List RawImage :=
  fun _ => (none,
    [⟨String.toList "i",
      [String.toList "x:1", String.toList "b:1", String.toList "y:1"], 0⟩])

/-- Engine remove behavior for the C9 witness: removing `"b:1"` raises `3`,
every other remove call succeeds. -/
def exRemove2 : PyStr → Option Nat :=
  fun s => if s = String.toList "b:1" then some 3 else none

/-- Witness for C9: the guard removes `"x:1"`, fails on `"b:1"`, never
attempts `"y:1"`, and the cleanup failure is the propagated outcome. -/
theorem docker_context_cleanup_failure_stops_witness :
    cleanupPlan (listLocalTags ([] : List RawImage)) (exBody2 []).2 =
      [String.toList "x:1"] ++ String.toList "b:1" :: [String.toList "y:1"]
    ∧ (∀ u ∈ [String.toList "x:1"], exRemove2 u = none)
    ∧ exRemove2 (String.toList "b:1") = some 3
    ∧ docker_context exRemove2 [] exBody2 =
        (some 3, [String.toList "x:1"] ++ [String.toList "b:1"]) :=
  ⟨by decide, by decide, by decide,
    docker_context_cleanup_failure_stops exRemove2 [] exBody2
      [String.toList "x:1"] [String.toList "y:1"] (String.toList "b:1") 3
      (by decide) (by decide) (by decide)⟩
